import Mathlib

/-!
Shallow embedding of the transaction input/output assembly core of
cardano-clusterlib (src/cardano_clusterlib/txtools.py), together with
theorems settling the specification claims about it.

Python dictionaries are modelled as insertion-ordered association lists,
Python sets of strings as duplicate-free insertion-ordered lists, exceptions
as `Except String`, and the in-place mutation that `_balance_txouts` performs
on the grouped requested-output dictionary (`coin_txouts.pop`) as explicit
state passing: the balancer returns the final state of that dictionary next
to its result.  Logging calls (`LOGGER.error`) are side effects with no
influence on data flow and are not modelled.  The external collaborators
(ledger UTxO query, deposit query) are modelled as input values.
-/

namespace TxTools

/-- Base coin identifier, mirroring `consts.DEFAULT_COIN`. -/
def DEFAULT_COIN : String := "lovelace"

/-- UTxO record, mirroring `structs.UTXOData`. -/
structure UTXOData where
  utxo_hash : String
  utxo_ix : Nat
  amount : Int
  address : String
  coin : String := DEFAULT_COIN
  decoded_coin : String := ""
  datum_hash : String := ""
deriving DecidableEq

/-- Transaction output, mirroring `structs.TxOut`. -/
structure TxOut where
  address : String
  amount : Int
  coin : String := DEFAULT_COIN
  datum_hash : String := ""
deriving DecidableEq

/-- UTxO identity, mirroring the format string `hash#ix` used throughout txtools. -/
def utxoId (u : UTXOData) : String := u.utxo_hash ++ "#" ++ toString u.utxo_ix

/-- Insertion-ordered dictionary of lists keyed by strings (a Python `Dict[str, list]`). -/
abbrev CoinDB (α : Type) : Type := List (String × List α)

/-- Dictionary lookup, mirroring `db.get(coin) or []`. -/
def dbGet {α : Type} (db : CoinDB α) (k : String) : List α :=
  ((db.find? (fun p => decide (p.1 = k))).map Prod.snd).getD []

def dbKeys {α : Type} (db : CoinDB α) : List String := db.map Prod.fst

/-- Replace the list stored at an existing key (in-place dict update). -/
def dbSet {α : Type} (db : CoinDB α) (k : String) (v : List α) : CoinDB α :=
  db.map (fun p => if p.1 = k then (p.1, v) else p)

/-- Append a record at a key, creating the key at the end if absent. -/
def dbAppend {α : Type} (db : CoinDB α) (k : String) (r : α) : CoinDB α :=
  match db with
  | [] => [(k, [r])]
  | p :: rest => if p.1 = k then (p.1, p.2 ++ [r]) :: rest else p :: dbAppend rest k r

/-- Partition records by a string key preserving encounter order; mirrors the
dictionary building of `_organize_tx_ins_outs_by_coin` and `_organize_utxos_by_id`. -/
def organizeBy {α : Type} (key : α → String) (recs : List α) : CoinDB α :=
  recs.foldl (fun db r => dbAppend db (key r) r) []

/-- `_organize_tx_ins_outs_by_coin` on transaction outputs. -/
def organize_txouts_by_coin (txouts : List TxOut) : CoinDB TxOut :=
  organizeBy TxOut.coin txouts

/-- `_organize_tx_ins_outs_by_coin` on UTxO records. -/
def organize_utxos_by_coin (utxos : List UTXOData) : CoinDB UTXOData :=
  organizeBy UTXOData.coin utxos

/-- `_organize_utxos_by_id`. -/
def organize_utxos_by_id (utxos : List UTXOData) : CoinDB UTXOData :=
  organizeBy utxoId utxos

/-- Ordered model of inserting one element into a Python set of strings. -/
def insertId (s : List String) (x : String) : List String :=
  if x ∈ s then s else s ++ [x]

/-- Ordered model of `set.update`. -/
def updateIds (s : List String) (xs : List String) : List String :=
  xs.foldl insertId s

/-- `functools.reduce(lambda x, y: x + y.amount, utxos, 0)`. -/
def sumAmountsU (l : List UTXOData) : Int := l.foldl (fun x u => x + u.amount) 0

/-- `functools.reduce(lambda x, y: x + y.amount, txouts, 0)`. -/
def sumAmountsT (l : List TxOut) : Int := l.foldl (fun x t => x + t.amount) 0

/-- `_get_utxos_with_coins`: all UTxO records at identities that hold at least one
of the required coins, each identity contributed in full at its first qualifying
appearance. -/
def get_utxos_with_coins (address_utxos : List UTXOData) (coins : List String) :
    List UTXOData :=
  let txins_by_id := organize_utxos_by_id address_utxos
  (address_utxos.foldl
    (fun (acc : List String × List UTXOData) r =>
      let uid := utxoId r
      if r.coin ∈ coins ∧ uid ∉ acc.1 then (acc.1 ++ [uid], acc.2 ++ dbGet txins_by_id uid)
      else acc)
    ([], [])).2

/-- The loop of `_collect_utxos_amount`: break once the collected amount equals
`amount` exactly or reaches `target` (the dust-adjusted amount). -/
def collectGo (amount target : Int) : List UTXOData → Int → List UTXOData
  | [], _ => []
  | u :: rest, collected =>
    if collected = amount ∨ target ≤ collected then []
    else u :: collectGo amount target rest (collected + u.amount)

/-- `_collect_utxos_amount`: the dust threshold applies only when the first UTxO
holds the base coin. -/
def collect_utxos_amount (utxos : List UTXOData) (amount min_change_value : Int) :
    List UTXOData :=
  let amount_plus_change :=
    match utxos with
    | [] => amount
    | u :: _ => if u.coin = DEFAULT_COIN then amount + min_change_value else amount
  collectGo amount amount_plus_change utxos 0

/-- One per-coin iteration of `_select_utxos`: the utxo ids this coin contributes. -/
def select_coin_ids (txins_db : CoinDB UTXOData) (txouts_passed_db : CoinDB TxOut)
    (txouts_mint_db : CoinDB TxOut) (fee : Int) (withdrawals : List TxOut)
    (min_change_value : Int) (dep : Int) (coin : String) : List String :=
  let coin_txins := dbGet txins_db coin
  let coin_txouts := dbGet txouts_passed_db coin
  if coin_txouts.any (fun v => decide (v.amount = -1)) then
    coin_txins.map utxoId
  else
    let total_output_amount := sumAmountsT coin_txouts
    let input_funds_needed :=
      if coin = DEFAULT_COIN then
        let tx_fee := if 1 < fee then fee else 1
        let funds_needed := total_output_amount + tx_fee + dep
        let total_withdrawals_amount := sumAmountsT withdrawals
        max (funds_needed - total_withdrawals_amount) tx_fee
      else
        let coin_txouts_minted := dbGet txouts_mint_db coin
        total_output_amount - sumAmountsT coin_txouts_minted
    (collect_utxos_amount coin_txins input_funds_needed min_change_value).map utxoId

/-- Spec-side variant of the per-coin selection (spec section 4.5): identical
except that the Collector is invoked with the funds needed clamped non-negative. -/
def select_coin_ids_spec (txins_db : CoinDB UTXOData) (txouts_passed_db : CoinDB TxOut)
    (txouts_mint_db : CoinDB TxOut) (fee : Int) (withdrawals : List TxOut)
    (min_change_value : Int) (dep : Int) (coin : String) : List String :=
  let coin_txins := dbGet txins_db coin
  let coin_txouts := dbGet txouts_passed_db coin
  if coin_txouts.any (fun v => decide (v.amount = -1)) then
    coin_txins.map utxoId
  else
    let total_output_amount := sumAmountsT coin_txouts
    let input_funds_needed :=
      if coin = DEFAULT_COIN then
        let tx_fee := if 1 < fee then fee else 1
        let funds_needed := total_output_amount + tx_fee + dep
        let total_withdrawals_amount := sumAmountsT withdrawals
        max (funds_needed - total_withdrawals_amount) tx_fee
      else
        let coin_txouts_minted := dbGet txouts_mint_db coin
        total_output_amount - sumAmountsT coin_txouts_minted
    (collect_utxos_amount coin_txins (max input_funds_needed 0) min_change_value).map utxoId

/-- The deduplicated coin iteration `set(txins_db).union(txouts_passed_db).union(txouts_mint_db)`
(Python set iteration order is arbitrary; modelled as first-encounter order). -/
def coinsUnion3 {α β : Type} (a : CoinDB α) (b : CoinDB β) (c : CoinDB β) : List String :=
  updateIds [] (dbKeys a ++ dbKeys b ++ dbKeys c)

/-- `_select_utxos`: ids of the UTxOs that satisfy all outputs, deposit and fee. -/
def select_utxos (txins_db : CoinDB UTXOData) (txouts_passed_db : CoinDB TxOut)
    (txouts_mint_db : CoinDB TxOut) (fee : Int) (withdrawals : List TxOut)
    (min_change_value : Int) (dep : Int) : List String :=
  (coinsUnion3 txins_db txouts_passed_db txouts_mint_db).foldl
    (fun acc coin =>
      updateIds acc
        (select_coin_ids txins_db txouts_passed_db txouts_mint_db fee withdrawals
          min_change_value dep coin))
    []

/-- The per-coin change amount computed by `_balance_txouts` (lines 165-188);
`coin_txouts` is the coin's requested-output list after removing a -1 sentinel. -/
def coin_change (coin : String) (coin_txins : List UTXOData) (coin_txouts : List TxOut)
    (coin_txouts_minted : List TxOut) (withdrawals : List TxOut) (fee dep : Int)
    (lovelace_balanced : Bool) : Int :=
  let total_input_amount := sumAmountsU coin_txins
  let total_output_amount := sumAmountsT coin_txouts
  if coin = DEFAULT_COIN ∧ lovelace_balanced then 0
  else if coin = DEFAULT_COIN then
    let tx_fee := if 0 < fee then fee else 0
    let total_withdrawals_amount := sumAmountsT withdrawals
    let funds_available := total_input_amount + total_withdrawals_amount
    let funds_needed := total_output_amount + tx_fee + dep
    funds_available - funds_needed
  else
    let total_minted_amount := sumAmountsT coin_txouts_minted
    let funds_available := total_input_amount + total_minted_amount
    funds_available - total_output_amount

/-- One iteration of the coin loop of `_balance_txouts`.  The state is the output
list built so far together with the current state of the grouped requested-output
dictionary (whose entry for `coin` the source mutates via `coin_txouts.pop`). -/
def balance_coin_step (src_address : String) (txins_db : CoinDB UTXOData)
    (txouts_mint_db : CoinDB TxOut) (fee : Int) (withdrawals : List TxOut) (dep : Int)
    (lovelace_balanced : Bool) (st : List TxOut × CoinDB TxOut) (coin : String) :
    Except String (List TxOut × CoinDB TxOut) :=
  let coin_txins := dbGet txins_db coin
  let coin_txouts_orig := dbGet st.2 coin
  if 1 < (coin_txouts_orig.filter (fun v => decide (v.amount = -1))).length then
    Except.error "Cannot send all remaining funds to more than one address."
  else
    let max_address := (coin_txouts_orig.find? (fun v => decide (v.amount = -1))).map TxOut.address
    let coin_txouts := coin_txouts_orig.eraseP (fun v => decide (v.amount = -1))
    let db' :=
      if coin_txouts_orig.any (fun v => decide (v.amount = -1)) then dbSet st.2 coin coin_txouts
      else st.2
    let change :=
      coin_change coin coin_txins coin_txouts (dbGet txouts_mint_db coin) withdrawals fee dep
        lovelace_balanced
    let acc' :=
      if 0 < change then
        st.1 ++ [{ address := max_address.getD src_address, amount := change, coin := coin }]
      else st.1
    Except.ok (acc', db')

/-- The coin loop of `_balance_txouts` with the raise modelled as `Except.error`. -/
def balanceLoop (src_address : String) (txins_db : CoinDB UTXOData)
    (txouts_mint_db : CoinDB TxOut) (fee : Int) (withdrawals : List TxOut) (dep : Int)
    (lovelace_balanced : Bool) :
    List String → List TxOut × CoinDB TxOut → Except String (List TxOut × CoinDB TxOut)
  | [], st => Except.ok st
  | coin :: rest, st =>
    match balance_coin_step src_address txins_db txouts_mint_db fee withdrawals dep
        lovelace_balanced st coin with
    | Except.error e => Except.error e
    | Except.ok st' =>
      balanceLoop src_address txins_db txouts_mint_db fee withdrawals dep lovelace_balanced
        rest st'

/-- `_balance_txouts`: balance the transaction by adding a change output for each
coin, then filter out non-positive amounts.  Also returns the final state of the
grouped requested-output dictionary (the source mutates it in place). -/
def balance_txouts (src_address : String) (txouts : List TxOut)
    (txins_db : CoinDB UTXOData) (txouts_passed_db : CoinDB TxOut)
    (txouts_mint_db : CoinDB TxOut) (fee : Int) (withdrawals : List TxOut) (dep : Int)
    (lovelace_balanced : Bool) : Except String (List TxOut × CoinDB TxOut) :=
  match balanceLoop src_address txins_db txouts_mint_db fee withdrawals dep lovelace_balanced
      (coinsUnion3 txins_db txouts_passed_db txouts_mint_db) (txouts, txouts_passed_db) with
  | Except.error e => Except.error e
  | Except.ok (res, db) => Except.ok (res.filter (fun r => decide (0 < r.amount)), db)

/-- `_get_tx_ins_outs`: the orchestrator.  The external collaborators appear as
input values: `address_utxos` is the answer of the ledger UTxO query and
`ext_deposit` the answer of the deposit query (used only when `deposit` is `none`);
`min_change_value` is the configured dust threshold. -/
def get_tx_ins_outs (address_utxos : List UTXOData) (ext_deposit : Int)
    (min_change_value : Int) (src_address : String) (txins : List UTXOData)
    (txouts : List TxOut) (fee : Int) (deposit : Option Int) (withdrawals : List TxOut)
    (mint_txouts : List TxOut) (lovelace_balanced : Bool) :
    Except String (List UTXOData × List TxOut) :=
  let txouts_passed_db := organize_txouts_by_coin txouts
  let txouts_mint_db := organize_txouts_by_coin mint_txouts
  let outcoins_all := DEFAULT_COIN :: (dbKeys txouts_mint_db ++ dbKeys txouts_passed_db)
  let txins_all :=
    if txins.isEmpty then get_utxos_with_coins address_utxos outcoins_all else txins
  let txins_db_all := organize_utxos_by_coin txins_all
  let tx_deposit := deposit.getD ext_deposit
  let st :=
    if txins.isEmpty then
      let selected :=
        select_utxos txins_db_all txouts_passed_db txouts_mint_db fee withdrawals
          min_change_value tx_deposit
      let txins_by_id := organize_utxos_by_id txins_all
      let txins_filtered :=
        ((txins_by_id.filter (fun p => decide (p.1 ∈ selected))).map Prod.snd).flatten
      (txins_filtered, organize_utxos_by_coin txins_filtered)
    else (txins_all, txins_db_all)
  match balance_txouts src_address txouts st.2 txouts_passed_db txouts_mint_db fee
      withdrawals tx_deposit lovelace_balanced with
  | Except.error e => Except.error e
  | Except.ok (txouts_balanced, _) => Except.ok (st.1, txouts_balanced)

/-- The orchestrator restricted to the no-explicit-inputs path, written out as the
spec describes it (section 4.7 steps 2 and 5): fetch the address UTxO set, filter it
to the touched coins, run the Selector and re-expand the selected identities. -/
def get_tx_ins_outs_auto (address_utxos : List UTXOData) (ext_deposit : Int)
    (min_change_value : Int) (src_address : String) (txouts : List TxOut) (fee : Int)
    (deposit : Option Int) (withdrawals : List TxOut) (mint_txouts : List TxOut)
    (lovelace_balanced : Bool) : Except String (List UTXOData × List TxOut) :=
  let txouts_passed_db := organize_txouts_by_coin txouts
  let txouts_mint_db := organize_txouts_by_coin mint_txouts
  let outcoins_all := DEFAULT_COIN :: (dbKeys txouts_mint_db ++ dbKeys txouts_passed_db)
  let txins_all := get_utxos_with_coins address_utxos outcoins_all
  let txins_db_all := organize_utxos_by_coin txins_all
  let tx_deposit := deposit.getD ext_deposit
  let selected :=
    select_utxos txins_db_all txouts_passed_db txouts_mint_db fee withdrawals
      min_change_value tx_deposit
  let txins_by_id := organize_utxos_by_id txins_all
  let txins_filtered :=
    ((txins_by_id.filter (fun p => decide (p.1 ∈ selected))).map Prod.snd).flatten
  match balance_txouts src_address txouts (organize_utxos_by_coin txins_filtered)
      txouts_passed_db txouts_mint_db fee withdrawals tx_deposit lovelace_balanced with
  | Except.error e => Except.error e
  | Except.ok (txouts_balanced, _) => Except.ok (txins_filtered, txouts_balanced)

/-- Value of one hexadecimal digit; `base64.b16decode(..., casefold=True)` accepts
both cases. -/
def hexDigitVal (c : Char) : Option Nat :=
  let n := c.toNat
  if 48 ≤ n ∧ n ≤ 57 then some (n - 48)
  else if 65 ≤ n ∧ n ≤ 70 then some (n - 55)
  else if 97 ≤ n ∧ n ≤ 102 then some (n - 87)
  else none

/-- Byte values of a hex string, two digits per byte; `none` on odd length or a
non-hex character (the error `base64.b16decode` raises). -/
def hexPairs : List Char → Option (List Nat)
  | [] => some []
  | [_] => none
  | c1 :: c2 :: rest =>
    match hexDigitVal c1, hexDigitVal c2, hexPairs rest with
    | some h, some l, some bs => some ((16 * h + l) :: bs)
    | _, _, _ => none

/-- `base64.b16decode(s.encode(), casefold=True)` as a byte-value list. -/
def b16decode (s : String) : Option (List Nat) := hexPairs s.toList

/-- Continuation-byte test for UTF-8. -/
def isCont (b : Nat) : Bool := decide (0x80 ≤ b ∧ b < 0xC0)

/-- Strict UTF-8 decoding of a byte-value list (`bytes.decode("utf-8")`): rejects
stray continuation bytes, overlong forms, surrogates and values beyond U+10FFFF. -/
def utf8Chars : List Nat → Option (List Char)
  | [] => some []
  | b :: rest =>
    if b < 0x80 then
      match utf8Chars rest with
      | some cs => some (Char.ofNat b :: cs)
      | none => none
    else if b < 0xC2 then none
    else if b < 0xE0 then
      match rest with
      | b1 :: rest2 =>
        if isCont b1 then
          match utf8Chars rest2 with
          | some cs => some (Char.ofNat ((b - 0xC0) * 0x40 + (b1 - 0x80)) :: cs)
          | none => none
        else none
      | [] => none
    else if b < 0xF0 then
      match rest with
      | b1 :: b2 :: rest3 =>
        if isCont b1 ∧ isCont b2 then
          let n := (b - 0xE0) * 0x1000 + (b1 - 0x80) * 0x40 + (b2 - 0x80)
          if 0x800 ≤ n ∧ ¬ (0xD800 ≤ n ∧ n ≤ 0xDFFF) then
            match utf8Chars rest3 with
            | some cs => some (Char.ofNat n :: cs)
            | none => none
          else none
        else none
      | _ => none
    else if b < 0xF5 then
      match rest with
      | b1 :: b2 :: b3 :: rest4 =>
        if isCont b1 ∧ isCont b2 ∧ isCont b3 then
          let n := (b - 0xF0) * 0x40000 + (b1 - 0x80) * 0x1000 + (b2 - 0x80) * 0x40 + (b3 - 0x80)
          if 0x10000 ≤ n ∧ n ≤ 0x10FFFF then
            match utf8Chars rest4 with
            | some cs => some (Char.ofNat n :: cs)
            | none => none
          else none
        else none
      | _ => none
    else none
termination_by l => l.length
decreasing_by
  all_goals simp_all
  all_goals omega

/-- The best-effort decode of an asset name performed by `get_utxo`: hex decode
followed by UTF-8 decode; `none` is the case the source swallows with
`except Exception: pass`. -/
def hexUtf8Decode (s : String) : Option String :=
  match b16decode s with
  | some bs =>
    match utf8Chars bs with
    | some cs => some (String.mk cs)
    | none => none
  | none => none

/-- The token-asset record built by `get_utxo` for one `(asset_name, amount)` entry
of a policy: the coin identifier is the raw hex-suffixed composite, the decoded
name is display-only and left empty when decoding fails. -/
def mkTokenRecord (utxo_hash : String) (utxo_ix : Nat) (addr : String)
    (datum_hash : String) (policyid : String) (asset_name : String) (amount : Int) :
    UTXOData :=
  let decoded_coin :=
    if asset_name = "" then policyid
    else
      match hexUtf8Decode asset_name with
      | some decoded_name => policyid ++ "." ++ decoded_name
      | none => ""
  { utxo_hash := utxo_hash, utxo_ix := utxo_ix, amount := amount, address := addr,
    coin := if asset_name = "" then policyid else policyid ++ "." ++ asset_name,
    decoded_coin := decoded_coin, datum_hash := datum_hash }

/-- The per-asset amounts collection of one policy in the external query result.
The external tool emits it either as a keyed mapping or as a plain pair sequence
(the `coin_data.items()` versus plain iteration in the source); both shapes iterate
to the same ordered pairs and are modelled by the same pair list. -/
inductive CoinData where
  | ada (amount : Int)
  | tokens (assets : List (String × Int))
deriving DecidableEq

/-- One entry of the external `query utxo` result (keyed by `hash#index`). -/
structure UtxoEntry where
  utxo_hash : String
  utxo_ix : Nat
  address : String
  value : List (String × CoinData)
  datum_hash : String := ""
deriving DecidableEq

/-- The records `get_utxo` produces for one `(policyid, coin_data)` pair of an
entry's value.  The external contract ties the shape to the key: the base-coin key
carries a plain amount and token keys carry asset collections; the mismatched
combinations do not occur and produce no records here. -/
def decode_value_entry (utxo_hash : String) (utxo_ix : Nat) (addr : String)
    (datum_hash : String) (policyid : String) (cd : CoinData) : List UTXOData :=
  if policyid = DEFAULT_COIN then
    match cd with
    | CoinData.ada amount =>
      [{ utxo_hash := utxo_hash, utxo_ix := utxo_ix, amount := amount, address := addr,
         coin := DEFAULT_COIN, decoded_coin := "", datum_hash := datum_hash }]
    | CoinData.tokens _ => []
  else
    match cd with
    | CoinData.ada _ => []
    | CoinData.tokens assets =>
      assets.map (fun a => mkTokenRecord utxo_hash utxo_ix addr datum_hash policyid a.1 a.2)

/-- `get_utxo`: decode an external `query utxo` result into UTxO records, with an
optional coin filter applied after full parsing. -/
def get_utxo (utxo_dict : List UtxoEntry) (address : String) (coins : List String) :
    List UTXOData :=
  let utxo := utxo_dict.foldl
    (fun acc e =>
      let utxo_address := if address = "" then e.address else address
      acc ++ (e.value.foldl
        (fun acc2 pc =>
          acc2 ++ decode_value_entry e.utxo_hash e.utxo_ix utxo_address e.datum_hash pc.1 pc.2)
        []))
    []
  if coins.isEmpty then utxo else utxo.filter (fun u => decide (u.coin ∈ coins))

/-! Helper lemmas. -/

lemma foldl_amountU (l : List UTXOData) (x : Int) :
    l.foldl (fun a u => a + u.amount) x = x + l.foldl (fun a u => a + u.amount) 0 := by
  induction l generalizing x with
  | nil => simp
  | cons u t ih =>
    simp only [List.foldl_cons]
    rw [ih (x + u.amount), ih (0 + u.amount)]
    ring

lemma sumAmountsU_cons (u : UTXOData) (l : List UTXOData) :
    sumAmountsU (u :: l) = u.amount + sumAmountsU l := by
  unfold sumAmountsU
  simp only [List.foldl_cons]
  rw [foldl_amountU]
  ring

lemma foldl_amountT (l : List TxOut) (x : Int) :
    l.foldl (fun a t => a + t.amount) x = x + l.foldl (fun a t => a + t.amount) 0 := by
  induction l generalizing x with
  | nil => simp
  | cons r t ih =>
    simp only [List.foldl_cons]
    rw [ih (x + r.amount), ih (0 + r.amount)]
    ring

lemma sumAmountsT_cons (r : TxOut) (l : List TxOut) :
    sumAmountsT (r :: l) = r.amount + sumAmountsT l := by
  unfold sumAmountsT
  simp only [List.foldl_cons]
  rw [foldl_amountT]
  ring

lemma collectGo_take (amount target : Int) (l : List UTXOData) (c : Int) :
    collectGo amount target l c = l.take (collectGo amount target l c).length := by
  induction l generalizing c with
  | nil => simp [collectGo]
  | cons u t ih =>
    simp only [collectGo]
    by_cases h : c = amount ∨ target ≤ c
    · simp [h]
    · simp only [if_neg h, List.length_cons, List.take_succ_cons, List.cons.injEq, true_and]
      exact ih (c + u.amount)

lemma collectGo_no_early_stop (amount target : Int) (l : List UTXOData) (c : Int) (k : Nat)
    (hk : k < (collectGo amount target l c).length) :
    ¬ (c + sumAmountsU (l.take k) = amount ∨ target ≤ c + sumAmountsU (l.take k)) := by
  induction l generalizing c k with
  | nil => simp [collectGo] at hk
  | cons u t ih =>
    simp only [collectGo] at hk
    by_cases h : c = amount ∨ target ≤ c
    · simp [h] at hk
    · rw [if_neg h] at hk
      cases k with
      | zero =>
        simpa [sumAmountsU] using h
      | succ k' =>
        have hk' : k' < (collectGo amount target t (c + u.amount)).length := by
          simpa using Nat.lt_of_succ_lt_succ (by simpa using hk)
        have := ih (c + u.amount) k' hk'
        simp only [List.take_succ_cons, sumAmountsU_cons] at this ⊢
        push_neg at this ⊢
        omega

lemma collectGo_last (amount target : Int) (l : List UTXOData) (c : Int) :
    collectGo amount target l c = l
    ∨ c + sumAmountsU (collectGo amount target l c) = amount
    ∨ target ≤ c + sumAmountsU (collectGo amount target l c) := by
  induction l generalizing c with
  | nil => left; simp [collectGo]
  | cons u t ih =>
    simp only [collectGo]
    by_cases h : c = amount ∨ target ≤ c
    · rw [if_pos h]
      rcases h with h | h
      · right; left; simpa [sumAmountsU]
      · right; right; simpa [sumAmountsU]
    · rw [if_neg h]
      rcases ih (c + u.amount) with he | hs | hs
      · left; rw [he]
      · right; left; rw [sumAmountsU_cons]; omega
      · right; right; rw [sumAmountsU_cons]; omega

lemma collect_clamp_nonbase (utxos : List UTXOData) (amount mcv : Int)
    (h : ∀ u ∈ utxos, u.coin ≠ DEFAULT_COIN) :
    collect_utxos_amount utxos amount mcv = collect_utxos_amount utxos (max amount 0) mcv := by
  rcases le_or_lt 0 amount with hge | hlt
  · rw [max_eq_left hge]
  · cases utxos with
    | nil => rfl
    | cons u t =>
      have hu : u.coin ≠ DEFAULT_COIN := h u (by simp)
      simp only [collect_utxos_amount, if_neg hu]
      rw [max_eq_right hlt.le]
      simp only [collectGo]
      rw [if_pos (Or.inr hlt.le)]
      simp

lemma collect_nil_of_nonpos (utxos : List UTXOData) (amount mcv : Int)
    (h : ∀ u ∈ utxos, u.coin ≠ DEFAULT_COIN) (ha : amount ≤ 0) :
    collect_utxos_amount utxos amount mcv = [] := by
  cases utxos with
  | nil => rfl
  | cons u t =>
    have hu : u.coin ≠ DEFAULT_COIN := h u (by simp)
    simp only [collect_utxos_amount, if_neg hu]
    simp only [collectGo]
    rw [if_pos (Or.inr ha)]

lemma dbGet_cons {α : Type} (p : String × List α) (t : CoinDB α) (k : String) :
    dbGet (p :: t) k = if p.1 = k then p.2 else dbGet t k := by
  by_cases h : p.1 = k
  · have hf : List.find? (fun q : String × List α => decide (q.1 = k)) (p :: t) = some p :=
      List.find?_cons_of_pos _ (by simpa using h)
    simp [dbGet, hf, h]
  · have hf : List.find? (fun q : String × List α => decide (q.1 = k)) (p :: t)
        = List.find? (fun q => decide (q.1 = k)) t :=
      List.find?_cons_of_neg _ (by simpa using h)
    simp [dbGet, hf, h]

lemma dbGet_dbSet_ne {α : Type} (db : CoinDB α) (k k' : String) (v : List α) (h : k ≠ k') :
    dbGet (dbSet db k' v) k = dbGet db k := by
  induction db with
  | nil => rfl
  | cons p t ih =>
    simp only [dbSet, List.map_cons]
    by_cases hpk : p.1 = k
    · have hpk' : ¬ p.1 = k' := by rw [hpk]; exact h
      rw [if_neg hpk', dbGet_cons, dbGet_cons, if_pos hpk, if_pos hpk]
    · by_cases hpk' : p.1 = k'
      · rw [if_pos hpk', dbGet_cons, dbGet_cons]
        simp only [if_neg hpk]
        exact ih
      · rw [if_neg hpk', dbGet_cons, dbGet_cons, if_neg hpk, if_neg hpk]
        exact ih

lemma dbGet_dbAppend {α : Type} (db : CoinDB α) (k' k : String) (r : α) :
    dbGet (dbAppend db k' r) k = dbGet db k ++ (if k' = k then [r] else []) := by
  induction db with
  | nil =>
    simp only [dbAppend]
    rw [dbGet_cons]
    by_cases h : k' = k
    · simp [h, dbGet]
    · simp [h, dbGet]
  | cons p t ih =>
    simp only [dbAppend]
    by_cases hp : p.1 = k'
    · rw [if_pos hp, dbGet_cons, dbGet_cons]
      by_cases hpk : p.1 = k
      · have hk : k' = k := by rw [← hp, hpk]
        rw [if_pos hpk, if_pos hpk, if_pos hk]
      · have hk : ¬ k' = k := fun hh => hpk (hp.trans hh)
        rw [if_neg hpk, if_neg hpk, if_neg hk, List.append_nil]
    · rw [if_neg hp, dbGet_cons, dbGet_cons]
      by_cases hpk : p.1 = k
      · have hk : ¬ k' = k := fun hh => hp (by rw [hpk, hh])
        rw [if_pos hpk, if_pos hpk, if_neg hk, List.append_nil]
      · rw [if_neg hpk, if_neg hpk]
        exact ih

lemma dbGet_organize_fold {α : Type} (key : α → String) (l : List α) (db : CoinDB α)
    (k : String) :
    dbGet (l.foldl (fun d r => dbAppend d (key r) r) db) k
      = dbGet db k ++ l.filter (fun r => decide (key r = k)) := by
  induction l generalizing db with
  | nil => simp
  | cons r t ih =>
    simp only [List.foldl_cons]
    rw [ih, dbGet_dbAppend, List.filter_cons]
    by_cases h : key r = k
    · simp [h]
    · simp [h]

lemma dbGet_organizeBy {α : Type} (key : α → String) (l : List α) (k : String) :
    dbGet (organizeBy key l) k = l.filter (fun r => decide (key r = k)) := by
  unfold organizeBy
  rw [dbGet_organize_fold]
  rfl

lemma mem_dbGet {α : Type} {t : α} {db : CoinDB α} {k : String} (h : t ∈ dbGet db k) :
    ∃ p ∈ db, t ∈ p.2 := by
  unfold dbGet at h
  cases hf : db.find? (fun p => decide (p.1 = k)) with
  | none => rw [hf] at h; simp at h
  | some p =>
    rw [hf] at h
    simp only [Option.map_some', Option.getD_some] at h
    exact ⟨p, List.mem_of_find?_eq_some hf, h⟩

lemma mem_dbKeys_of_dbGet_ne {α : Type} {db : CoinDB α} {k : String}
    (h : dbGet db k ≠ []) : k ∈ dbKeys db := by
  unfold dbGet at h
  cases hf : db.find? (fun p => decide (p.1 = k)) with
  | none => rw [hf] at h; simp at h
  | some p =>
    have hmem := List.mem_of_find?_eq_some hf
    have hp := List.find?_some hf
    have hpk : p.1 = k := by simpa using hp
    exact hpk ▸ List.mem_map_of_mem Prod.fst hmem

lemma mem_insertId {s : List String} {x y : String} :
    y ∈ insertId s x ↔ y ∈ s ∨ y = x := by
  unfold insertId
  by_cases h : x ∈ s
  · rw [if_pos h]
    exact ⟨fun hy => Or.inl hy, fun hy => hy.elim id (fun he => he ▸ h)⟩
  · rw [if_neg h]
    simp

lemma mem_updateIds {s : List String} {xs : List String} {y : String} :
    y ∈ updateIds s xs ↔ y ∈ s ∨ y ∈ xs := by
  induction xs generalizing s with
  | nil => simp [updateIds]
  | cons x t ih =>
    simp only [updateIds, List.foldl_cons]
    rw [show t.foldl insertId (insertId s x) = updateIds (insertId s x) t from rfl, ih,
      mem_insertId, List.mem_cons]
    tauto

lemma balance_coin_step_error_msg {src : String} {txins_db : CoinDB UTXOData}
    {mint_db : CoinDB TxOut} {fee : Int} {w : List TxOut} {dep : Int} {lb : Bool}
    {st : List TxOut × CoinDB TxOut} {coin : String} {e : String}
    (h : balance_coin_step src txins_db mint_db fee w dep lb st coin = Except.error e) :
    e = "Cannot send all remaining funds to more than one address." := by
  simp only [balance_coin_step] at h
  split at h
  · injection h with h2
    exact h2.symm
  · simp at h

lemma balance_coin_step_two_sentinels {src : String} {txins_db : CoinDB UTXOData}
    {mint_db : CoinDB TxOut} {fee : Int} {w : List TxOut} {dep : Int} {lb : Bool}
    {st : List TxOut × CoinDB TxOut} {coin : String}
    (h : 1 < ((dbGet st.2 coin).filter (fun v => decide (v.amount = -1))).length) :
    balance_coin_step src txins_db mint_db fee w dep lb st coin =
      Except.error "Cannot send all remaining funds to more than one address." := by
  simp only [balance_coin_step]
  rw [if_pos h]

lemma balance_coin_step_no_sentinel (src : String) (txins_db : CoinDB UTXOData)
    (mint_db : CoinDB TxOut) (fee : Int) (w : List TxOut) (dep : Int) (lb : Bool)
    (acc : List TxOut) (db : CoinDB TxOut) (coin : String)
    (hns : ∀ t ∈ dbGet db coin, t.amount ≠ -1) :
    balance_coin_step src txins_db mint_db fee w dep lb (acc, db) coin =
      Except.ok
        ((if 0 < coin_change coin (dbGet txins_db coin) (dbGet db coin) (dbGet mint_db coin)
              w fee dep lb
          then acc ++ [{ address := src,
                         amount := coin_change coin (dbGet txins_db coin) (dbGet db coin)
                           (dbGet mint_db coin) w fee dep lb,
                         coin := coin }]
          else acc), db) := by
  have hfilter : (dbGet db coin).filter (fun v => decide (v.amount = -1)) = [] :=
    List.filter_eq_nil_iff.mpr (fun a ha => by simpa using hns a ha)
  have hfind : (dbGet db coin).find? (fun v => decide (v.amount = -1)) = none :=
    List.find?_eq_none.mpr (fun a ha => by simpa using hns a ha)
  have hany : (dbGet db coin).any (fun v => decide (v.amount = -1)) = false :=
    List.any_eq_false.mpr (fun a ha => by simpa using hns a ha)
  have herase : (dbGet db coin).eraseP (fun v => decide (v.amount = -1)) = dbGet db coin :=
    List.eraseP_of_forall_not (fun a ha => by simpa using hns a ha)
  simp only [balance_coin_step, hfilter, hfind, hany, herase]
  simp

lemma balance_coin_step_db_cases {src : String} {txins_db : CoinDB UTXOData}
    {mint_db : CoinDB TxOut} {fee : Int} {w : List TxOut} {dep : Int} {lb : Bool}
    {st st' : List TxOut × CoinDB TxOut} {coin : String}
    (h : balance_coin_step src txins_db mint_db fee w dep lb st coin = Except.ok st') :
    st'.2 = st.2
    ∨ st'.2 = dbSet st.2 coin ((dbGet st.2 coin).eraseP (fun v => decide (v.amount = -1))) := by
  simp only [balance_coin_step] at h
  split at h
  · simp at h
  · injection h with h2
    rw [← h2]
    by_cases hany : (dbGet st.2 coin).any (fun v => decide (v.amount = -1)) = true
    · right
      simp only [hany, if_true]
    · left
      simp only [eq_false_of_ne_true hany]
      simp

lemma balanceLoop_error_of_bad_coin (src : String) (txins_db : CoinDB UTXOData)
    (mint_db : CoinDB TxOut) (fee : Int) (w : List TxOut) (dep : Int) (lb : Bool)
    (c : String) (coins : List String) :
    ∀ st : List TxOut × CoinDB TxOut, c ∈ coins →
      1 < ((dbGet st.2 c).filter (fun v => decide (v.amount = -1))).length →
      balanceLoop src txins_db mint_db fee w dep lb coins st =
        Except.error "Cannot send all remaining funds to more than one address." := by
  induction coins with
  | nil => intro st hc _; cases hc
  | cons c0 rest ih =>
    intro st hc hbad
    simp only [balanceLoop]
    rcases hstep : balance_coin_step src txins_db mint_db fee w dep lb st c0 with e | st'
    · have he := balance_coin_step_error_msg hstep
      rw [he]
    · have hc0 : c0 ≠ c := by
        intro heq; subst heq
        rw [balance_coin_step_two_sentinels hbad] at hstep
        simp at hstep
      have hcrest : c ∈ rest := by
        rcases List.mem_cons.mp hc with h1 | h1
        · exact absurd h1.symm hc0
        · exact h1
      have hdb : dbGet st'.2 c = dbGet st.2 c := by
        rcases balance_coin_step_db_cases hstep with h1 | h1
        · rw [h1]
        · rw [h1]; exact dbGet_dbSet_ne _ _ _ _ (fun hh => hc0 hh.symm)
      exact ih st' hcrest (hdb ▸ hbad)

lemma balanceLoop_preserves_db (src : String) (txins_db : CoinDB UTXOData)
    (mint_db : CoinDB TxOut) (fee : Int) (w : List TxOut) (dep : Int) (lb : Bool)
    (coins : List String) :
    ∀ (acc : List TxOut) (db : CoinDB TxOut),
      (∀ p ∈ db, ∀ t ∈ p.2, t.amount ≠ -1) →
      ∀ res db', balanceLoop src txins_db mint_db fee w dep lb coins (acc, db) =
          Except.ok (res, db') → db' = db := by
  induction coins with
  | nil =>
    intro acc db _ res db' h
    simp only [balanceLoop, Except.ok.injEq, Prod.mk.injEq] at h
    exact h.2.symm
  | cons c0 rest ih =>
    intro acc db hns res db' h
    have hstep := balance_coin_step_no_sentinel src txins_db mint_db fee w dep lb acc db c0
      (fun t ht => by
        obtain ⟨p, hp, htp⟩ := mem_dbGet ht
        exact hns p hp t htp)
    simp only [balanceLoop] at h
    rw [hstep] at h
    exact ih _ db hns res db' h

lemma balance_txouts_pos {src : String} {txouts : List TxOut} {txins_db : CoinDB UTXOData}
    {passed_db mint_db : CoinDB TxOut} {fee : Int} {w : List TxOut} {dep : Int} {lb : Bool}
    {res : List TxOut} {db' : CoinDB TxOut}
    (h : balance_txouts src txouts txins_db passed_db mint_db fee w dep lb =
      Except.ok (res, db')) :
    ∀ r ∈ res, 0 < r.amount := by
  unfold balance_txouts at h
  cases hl : balanceLoop src txins_db mint_db fee w dep lb
      (coinsUnion3 txins_db passed_db mint_db) (txouts, passed_db) with
  | error e => rw [hl] at h; simp at h
  | ok st0 =>
    obtain ⟨a, b⟩ := st0
    rw [hl] at h
    simp only [Except.ok.injEq, Prod.mk.injEq] at h
    intro r hr
    rw [← h.1] at hr
    simpa using (List.mem_filter.mp hr).2

lemma tx_fee_sel_eq (fee : Int) : (if 1 < fee then fee else 1) = max fee 1 := by
  by_cases h : 1 < fee
  · rw [if_pos h, max_eq_left (by omega)]
  · rw [if_neg h, max_eq_right (by omega)]

lemma select_coin_ids_base_eq (txins_db : CoinDB UTXOData) (passed_db mint_db : CoinDB TxOut)
    (fee : Int) (w : List TxOut) (mcv dep : Int)
    (hns : ∀ t ∈ dbGet passed_db DEFAULT_COIN, t.amount ≠ -1) :
    select_coin_ids txins_db passed_db mint_db fee w mcv dep DEFAULT_COIN =
      (collect_utxos_amount (dbGet txins_db DEFAULT_COIN)
        (max (sumAmountsT (dbGet passed_db DEFAULT_COIN) + max fee 1 + dep - sumAmountsT w)
          (max fee 1)) mcv).map utxoId := by
  have hany : (dbGet passed_db DEFAULT_COIN).any (fun v => decide (v.amount = -1)) = false :=
    List.any_eq_false.mpr (fun a ha => by simpa using hns a ha)
  simp only [select_coin_ids, hany, Bool.false_eq_true, if_false, if_pos rfl, tx_fee_sel_eq]
  simp

lemma select_coin_ids_nonbase_eq (txins_db : CoinDB UTXOData)
    (passed_db mint_db : CoinDB TxOut) (fee : Int) (w : List TxOut) (mcv dep : Int)
    (coin : String) (hcoin : coin ≠ DEFAULT_COIN)
    (hns : ∀ t ∈ dbGet passed_db coin, t.amount ≠ -1) :
    select_coin_ids txins_db passed_db mint_db fee w mcv dep coin =
      (collect_utxos_amount (dbGet txins_db coin)
        (sumAmountsT (dbGet passed_db coin) - sumAmountsT (dbGet mint_db coin)) mcv).map
        utxoId := by
  have hany : (dbGet passed_db coin).any (fun v => decide (v.amount = -1)) = false :=
    List.any_eq_false.mpr (fun a ha => by simpa using hns a ha)
  simp only [select_coin_ids, hany, Bool.false_eq_true, if_false, if_neg hcoin]

lemma select_coin_ids_spec_nonbase_eq (txins_db : CoinDB UTXOData)
    (passed_db mint_db : CoinDB TxOut) (fee : Int) (w : List TxOut) (mcv dep : Int)
    (coin : String) (hcoin : coin ≠ DEFAULT_COIN)
    (hns : ∀ t ∈ dbGet passed_db coin, t.amount ≠ -1) :
    select_coin_ids_spec txins_db passed_db mint_db fee w mcv dep coin =
      (collect_utxos_amount (dbGet txins_db coin)
        (max (sumAmountsT (dbGet passed_db coin) - sumAmountsT (dbGet mint_db coin)) 0)
        mcv).map utxoId := by
  have hany : (dbGet passed_db coin).any (fun v => decide (v.amount = -1)) = false :=
    List.any_eq_false.mpr (fun a ha => by simpa using hns a ha)
  simp only [select_coin_ids_spec, hany, Bool.false_eq_true, if_false, if_neg hcoin]

lemma balance_txouts_error_of_bad_coin (src : String) (txouts : List TxOut)
    (txins_db : CoinDB UTXOData) (passed_db mint_db : CoinDB TxOut) (fee : Int)
    (w : List TxOut) (dep : Int) (lb : Bool) (c : String)
    (hbad : 1 < ((dbGet passed_db c).filter (fun v => decide (v.amount = -1))).length)
    (hmem : c ∈ dbKeys passed_db) :
    balance_txouts src txouts txins_db passed_db mint_db fee w dep lb =
      Except.error "Cannot send all remaining funds to more than one address." := by
  have hmem' : c ∈ coinsUnion3 txins_db passed_db mint_db := by
    unfold coinsUnion3
    rw [mem_updateIds]
    simp [List.mem_append, hmem]
  unfold balance_txouts
  rw [balanceLoop_error_of_bad_coin src txins_db mint_db fee w dep lb c
    (coinsUnion3 txins_db passed_db mint_db) (txouts, passed_db) hmem' hbad]

/-! Claim theorems. -/

/-- C1: for every coin processed by the Balancer (with base-coin balancing not
delegated externally), the accounting identity holds: total selected-input amount
plus total withdrawals (base coin) or total minted amount (other coins) equals
total requested-output amount plus fee plus deposit (base coin only) plus the
computed change; a change output is appended exactly when the change is positive;
and the final output list never contains an output with amount ≤ 0. -/
theorem balancer_accounting_identity (coin : String) (coin_txins : List UTXOData)
    (coin_txouts coin_mint withdrawals : List TxOut) (fee dep : Int) (src : String)
    (txins_db : CoinDB UTXOData) (mint_db : CoinDB TxOut) (acc : List TxOut)
    (db : CoinDB TxOut) (lb : Bool) (hfee : 0 ≤ fee)
    (hns : ∀ t ∈ dbGet db coin, t.amount ≠ -1) :
    (coin = DEFAULT_COIN →
      sumAmountsU coin_txins + sumAmountsT withdrawals
        = sumAmountsT coin_txouts + fee + dep
          + coin_change coin coin_txins coin_txouts coin_mint withdrawals fee dep false)
    ∧ (coin ≠ DEFAULT_COIN →
      sumAmountsU coin_txins + sumAmountsT coin_mint
        = sumAmountsT coin_txouts
          + coin_change coin coin_txins coin_txouts coin_mint withdrawals fee dep lb)
    ∧ balance_coin_step src txins_db mint_db fee withdrawals dep lb (acc, db) coin =
        Except.ok
          ((if 0 < coin_change coin (dbGet txins_db coin) (dbGet db coin)
                (dbGet mint_db coin) withdrawals fee dep lb
            then acc ++ [{ address := src,
                           amount := coin_change coin (dbGet txins_db coin) (dbGet db coin)
                             (dbGet mint_db coin) withdrawals fee dep lb,
                           coin := coin }]
            else acc), db)
    ∧ (∀ (txouts : List TxOut) (tdb : CoinDB UTXOData) (pdb mdb : CoinDB TxOut)
        (res : List TxOut) (db' : CoinDB TxOut),
        balance_txouts src txouts tdb pdb mdb fee withdrawals dep lb = Except.ok (res, db') →
        ∀ r ∈ res, 0 < r.amount) := by
  refine ⟨?_, ?_, ?_, ?_⟩
  · intro hcd
    subst hcd
    simp only [coin_change, Bool.false_eq_true, and_false, true_and, if_false, if_true,
      ite_true, ite_false, eq_self_iff_true]
    have h2 : (if 0 < fee then fee else 0) = fee := by
      by_cases h : 0 < fee
      · rw [if_pos h]
      · rw [if_neg h]; omega
    rw [h2]
    ring
  · intro hcd
    simp only [coin_change]
    rw [if_neg (fun h => hcd h.1), if_neg hcd]
    ring
  · exact balance_coin_step_no_sentinel src txins_db mint_db fee withdrawals dep lb acc db
      coin hns
  · intro txouts tdb pdb mdb res db' h
    exact balance_txouts_pos h

/-- Witness for C1 at a concrete base-coin input. -/
theorem balancer_accounting_identity_witness :
    sumAmountsU [{ utxo_hash := "txA", utxo_ix := 0, amount := 500, address := "a1" }]
        + sumAmountsT []
      = sumAmountsT [{ address := "a2", amount := 300 }] + 10 + 0
        + coin_change DEFAULT_COIN
            [{ utxo_hash := "txA", utxo_ix := 0, amount := 500, address := "a1" }]
            [{ address := "a2", amount := 300 }] [] [] 10 0 false :=
  (balancer_accounting_identity DEFAULT_COIN
    [{ utxo_hash := "txA", utxo_ix := 0, amount := 500, address := "a1" }]
    [{ address := "a2", amount := 300 }] [] [] 10 0 "src" [] [] [] [] false
    (by decide) (by decide)).1 rfl

/-- C2: the Greedy Fund Collector consumes the UTxOs of a single-coin list in the
given order (its result is an initial segment of the input, so no UTxO is examined
twice and the order is never re-sorted) and stops at the first prefix whose running
total exactly equals the target amount or reaches amount + minChangeValue when the
coin is the base coin; for non-base coins minChangeValue is ignored and collection
stops once the running total reaches the target amount. -/
theorem collector_greedy_characterization (utxos : List UTXOData) (c : String)
    (amount mcv : Int) (hcoin : ∀ u ∈ utxos, u.coin = c) :
    collect_utxos_amount utxos amount mcv
        = utxos.take (collect_utxos_amount utxos amount mcv).length
    ∧ (∀ k, k < (collect_utxos_amount utxos amount mcv).length →
        ¬ (if c = DEFAULT_COIN
           then sumAmountsU (utxos.take k) = amount
             ∨ amount + mcv ≤ sumAmountsU (utxos.take k)
           else amount ≤ sumAmountsU (utxos.take k)))
    ∧ (collect_utxos_amount utxos amount mcv = utxos
       ∨ (if c = DEFAULT_COIN
          then sumAmountsU (collect_utxos_amount utxos amount mcv) = amount
            ∨ amount + mcv ≤ sumAmountsU (collect_utxos_amount utxos amount mcv)
          else amount ≤ sumAmountsU (collect_utxos_amount utxos amount mcv))) := by
  cases utxos with
  | nil =>
    refine ⟨rfl, ?_, Or.inl rfl⟩
    intro k hk
    simp [collect_utxos_amount, collectGo] at hk
  | cons u t =>
    have hu : u.coin = c := hcoin u (by simp)
    have hT : collect_utxos_amount (u :: t) amount mcv
        = collectGo amount (if c = DEFAULT_COIN then amount + mcv else amount) (u :: t) 0 := by
      simp only [collect_utxos_amount, hu]
    refine ⟨?_, ?_, ?_⟩
    · rw [hT]
      exact collectGo_take _ _ _ _
    · intro k hk
      rw [hT] at hk
      have hstop := collectGo_no_early_stop amount
        (if c = DEFAULT_COIN then amount + mcv else amount) (u :: t) 0 k hk
      by_cases hcd : c = DEFAULT_COIN
      · simp only [if_pos hcd] at hstop ⊢
        push_neg at hstop ⊢
        omega
      · simp only [if_neg hcd] at hstop ⊢
        push_neg at hstop
        omega
    · rw [hT]
      rcases collectGo_last amount (if c = DEFAULT_COIN then amount + mcv else amount)
          (u :: t) 0 with he | hs | hs
      · exact Or.inl he
      · right
        by_cases hcd : c = DEFAULT_COIN
        · simp only [if_pos hcd] at hs ⊢
          left
          omega
        · simp only [if_neg hcd] at hs ⊢
          omega
      · right
        by_cases hcd : c = DEFAULT_COIN
        · simp only [if_pos hcd] at hs ⊢
          right
          omega
        · simp only [if_neg hcd] at hs ⊢
          omega

/-- Witness for C2 at a concrete base-coin input where the exact-amount stop fires. -/
theorem collector_greedy_characterization_witness :
    collect_utxos_amount
        [{ utxo_hash := "txA", utxo_ix := 0, amount := 5, address := "a1" },
         { utxo_hash := "txB", utxo_ix := 0, amount := 7, address := "a1" }] 5 3
      = ([{ utxo_hash := "txA", utxo_ix := 0, amount := 5, address := "a1" },
          { utxo_hash := "txB", utxo_ix := 0, amount := 7, address := "a1" }] :
          List UTXOData).take
          (collect_utxos_amount
            [{ utxo_hash := "txA", utxo_ix := 0, amount := 5, address := "a1" },
             { utxo_hash := "txB", utxo_ix := 0, amount := 7, address := "a1" }] 5 3).length :=
  (collector_greedy_characterization
    [{ utxo_hash := "txA", utxo_ix := 0, amount := 5, address := "a1" },
     { utxo_hash := "txB", utxo_ix := 0, amount := 7, address := "a1" }]
    DEFAULT_COIN 5 3 (by decide)).1

/-- C3: for the base coin without the -1 sentinel, the Coverage Selector invokes the
Collector with input funds needed equal to
max(totalRequestedOutputs + max(fee,1) + deposit - totalWithdrawals, max(fee,1)),
which is never below max(fee,1). -/
theorem selector_base_funds_needed (txins_db : CoinDB UTXOData)
    (passed_db mint_db : CoinDB TxOut) (fee : Int) (w : List TxOut) (mcv dep : Int)
    (hns : ∀ t ∈ dbGet passed_db DEFAULT_COIN, t.amount ≠ -1) :
    select_coin_ids txins_db passed_db mint_db fee w mcv dep DEFAULT_COIN =
      (collect_utxos_amount (dbGet txins_db DEFAULT_COIN)
        (max (sumAmountsT (dbGet passed_db DEFAULT_COIN) + max fee 1 + dep - sumAmountsT w)
          (max fee 1)) mcv).map utxoId
    ∧ max fee 1
        ≤ max (sumAmountsT (dbGet passed_db DEFAULT_COIN) + max fee 1 + dep - sumAmountsT w)
            (max fee 1) :=
  ⟨select_coin_ids_base_eq _ _ _ _ _ _ _ hns, le_max_right _ _⟩

/-- Witness for C3 where withdrawals exceed all other needs yet the funds needed
stay at max(fee,1). -/
theorem selector_base_funds_needed_witness :
    select_coin_ids
        (organize_utxos_by_coin
          [{ utxo_hash := "txA", utxo_ix := 0, amount := 50, address := "a1" }])
        (organize_txouts_by_coin [{ address := "a2", amount := 30 }])
        (organize_txouts_by_coin []) 10 [{ address := "stake1", amount := 1000 }] 0 0
        DEFAULT_COIN
      = (collect_utxos_amount
          (dbGet (organize_utxos_by_coin
            [{ utxo_hash := "txA", utxo_ix := 0, amount := 50, address := "a1" }])
            DEFAULT_COIN)
          (max (sumAmountsT (dbGet (organize_txouts_by_coin
              [{ address := "a2", amount := 30 }]) DEFAULT_COIN)
            + max 10 1 + 0 - sumAmountsT [{ address := "stake1", amount := 1000 }])
            (max 10 1)) 0).map utxoId :=
  (selector_base_funds_needed
    (organize_utxos_by_coin
      [{ utxo_hash := "txA", utxo_ix := 0, amount := 50, address := "a1" }])
    (organize_txouts_by_coin [{ address := "a2", amount := 30 }])
    (organize_txouts_by_coin []) 10 [{ address := "stake1", amount := 1000 }] 0 0
    (by decide)).1

/-- C4 counterexample: with two -1 outputs for the base coin and automatic
selection, the fatal error is raised, but not before selection: the Selector,
invoked by the orchestrator on exactly these inputs, completes normally and
selects the coin's input (its -1 branch selects all inputs of the coin); the
error only arises afterwards, in the Balancer.  This refutes the claim that no
UTxO selection computation happens for such a request. -/
theorem duplicate_sentinel_selection_runs :
    get_tx_ins_outs
        [{ utxo_hash := "txA", utxo_ix := 0, amount := 1000, address := "addr1" }]
        0 0 "addr1" []
        [{ address := "addr2", amount := -1 }, { address := "addr3", amount := -1 }]
        10 (some 0) [] [] false
      = Except.error "Cannot send all remaining funds to more than one address."
    ∧ select_utxos
        (organize_utxos_by_coin
          [{ utxo_hash := "txA", utxo_ix := 0, amount := 1000, address := "addr1" }])
        (organize_txouts_by_coin
          [{ address := "addr2", amount := -1 }, { address := "addr3", amount := -1 }])
        (organize_txouts_by_coin []) 10 [] 0 0
      = ["txA#0"] :=
  ⟨rfl, rfl⟩

/-- C4 amended: if the requested outputs contain more than one -1-sentinel output
for the same coin, the orchestrator raises the fatal error; the error is raised by
the Balancer after the selection stage has already completed, not before it. -/
theorem duplicate_sentinel_fatal (address_utxos : List UTXOData) (ext_dep mcv : Int)
    (src : String) (txins : List UTXOData) (txouts : List TxOut) (fee : Int)
    (dep : Option Int) (w mint : List TxOut) (lb : Bool) (c : String)
    (hdup : 1 < (txouts.filter
      (fun t => decide (t.amount = -1) && decide (t.coin = c))).length) :
    get_tx_ins_outs address_utxos ext_dep mcv src txins txouts fee dep w mint lb =
      Except.error "Cannot send all remaining funds to more than one address." := by
  have hb0 : (dbGet (organize_txouts_by_coin txouts) c).filter
      (fun v => decide (v.amount = -1))
      = txouts.filter (fun t => decide (t.amount = -1) && decide (t.coin = c)) := by
    unfold organize_txouts_by_coin
    rw [dbGet_organizeBy, List.filter_filter]
  have hbad : 1 < ((dbGet (organize_txouts_by_coin txouts) c).filter
      (fun v => decide (v.amount = -1))).length := by
    rw [hb0]
    exact hdup
  have hne : dbGet (organize_txouts_by_coin txouts) c ≠ [] := by
    intro h0
    rw [h0] at hbad
    simp at hbad
  have hmem : c ∈ dbKeys (organize_txouts_by_coin txouts) := mem_dbKeys_of_dbGet_ne hne
  simp only [get_tx_ins_outs]
  rw [balance_txouts_error_of_bad_coin src txouts _ (organize_txouts_by_coin txouts)
    (organize_txouts_by_coin mint) fee w _ lb c hbad hmem]

/-- Witness for the amended C4 on a concrete explicit-inputs request. -/
theorem duplicate_sentinel_fatal_witness :
    get_tx_ins_outs [] 0 0 "a1"
        [{ utxo_hash := "txB", utxo_ix := 1, amount := 700, address := "a1" }]
        [{ address := "a2", amount := -1 }, { address := "a3", amount := -1 }]
        5 (some 0) [] [] false
      = Except.error "Cannot send all remaining funds to more than one address." :=
  duplicate_sentinel_fatal [] 0 0 "a1"
    [{ utxo_hash := "txB", utxo_ix := 1, amount := 700, address := "a1" }]
    [{ address := "a2", amount := -1 }, { address := "a3", amount := -1 }]
    5 (some 0) [] [] false DEFAULT_COIN (by decide)

/-- C5 counterexample: automatic selection, no -1 sentinel for the base coin, yet
the pipeline produces base-coin change 30 strictly between 0 and
minChangeValue = 50: the Collector exhausted the only available UTxO (340) without
reaching the dust-adjusted target 310 + 50, and the Balancer then computed change
340 - 310 = 30. -/
theorem pipeline_dust_change_counterexample :
    get_tx_ins_outs
        [{ utxo_hash := "txA", utxo_ix := 0, amount := 340, address := "addr1" }]
        0 50 "addr1" [] [{ address := "addr2", amount := 300 }] 10 (some 0) [] [] false
      = Except.ok
          ([{ utxo_hash := "txA", utxo_ix := 0, amount := 340, address := "addr1" }],
           [{ address := "addr2", amount := 300 }, { address := "addr1", amount := 30 }])
    ∧ (0 : Int) < 30 ∧ (30 : Int) < 50 :=
  ⟨rfl, by decide, by decide⟩

/-- C5 amended: for a base-coin UTxO list, the total the Collector gathers is
exactly the requested amount, or at least amount + minChangeValue, or the Collector
consumed every available UTxO (it could not reach the dust-adjusted target); only
through the exhaustion case, or through base-coin records co-located with
identities selected for other coins, can the pipeline produce base-coin change
strictly between 0 and minChangeValue. -/
theorem collector_base_change_zero_or_min (utxos : List UTXOData) (amount mcv : Int)
    (hcoin : ∀ u ∈ utxos, u.coin = DEFAULT_COIN) :
    sumAmountsU (collect_utxos_amount utxos amount mcv) = amount
    ∨ amount + mcv ≤ sumAmountsU (collect_utxos_amount utxos amount mcv)
    ∨ collect_utxos_amount utxos amount mcv = utxos := by
  cases utxos with
  | nil => right; right; rfl
  | cons u t =>
    have hu : u.coin = DEFAULT_COIN := hcoin u (by simp)
    have hT : collect_utxos_amount (u :: t) amount mcv
        = collectGo amount (amount + mcv) (u :: t) 0 := by
      simp only [collect_utxos_amount, hu, eq_self_iff_true, if_true]
    rw [hT]
    rcases collectGo_last amount (amount + mcv) (u :: t) 0 with he | hs | hs
    · right; right; exact he
    · left; omega
    · right; left; omega

/-- Witness for the amended C5: the exhaustion disjunct at a concrete input. -/
theorem collector_base_change_zero_or_min_witness :
    sumAmountsU (collect_utxos_amount
        [{ utxo_hash := "txA", utxo_ix := 0, amount := 340, address := "addr1" }] 310 50)
      = 310
    ∨ 310 + 50 ≤ sumAmountsU (collect_utxos_amount
        [{ utxo_hash := "txA", utxo_ix := 0, amount := 340, address := "addr1" }] 310 50)
    ∨ collect_utxos_amount
        [{ utxo_hash := "txA", utxo_ix := 0, amount := 340, address := "addr1" }] 310 50
      = [{ utxo_hash := "txA", utxo_ix := 0, amount := 340, address := "addr1" }] :=
  collector_base_change_zero_or_min
    [{ utxo_hash := "txA", utxo_ix := 0, amount := 340, address := "addr1" }] 310 50
    (by decide)

/-- C6: for a non-base coin without the -1 sentinel whose funds needed
(totalRequestedOutputs - totalMintedAmount) may be negative, invoking the Collector
with the unclamped amount (as the code does) equals invoking it with the amount
clamped to non-negative (as the spec states), and when the funds needed are zero or
negative no input UTxO of the coin is selected. -/
theorem selector_nonbase_clamp_equivalence (txins_db : CoinDB UTXOData)
    (passed_db mint_db : CoinDB TxOut) (fee : Int) (w : List TxOut) (mcv dep : Int)
    (coin : String) (hcoin : coin ≠ DEFAULT_COIN)
    (hwf : ∀ u ∈ dbGet txins_db coin, u.coin = coin)
    (hns : ∀ t ∈ dbGet passed_db coin, t.amount ≠ -1) :
    select_coin_ids txins_db passed_db mint_db fee w mcv dep coin
        = select_coin_ids_spec txins_db passed_db mint_db fee w mcv dep coin
    ∧ (sumAmountsT (dbGet passed_db coin) - sumAmountsT (dbGet mint_db coin) ≤ 0 →
        select_coin_ids txins_db passed_db mint_db fee w mcv dep coin = []) := by
  have hnb : ∀ u ∈ dbGet txins_db coin, u.coin ≠ DEFAULT_COIN := by
    intro u hu h
    exact hcoin ((hwf u hu).symm.trans h)
  constructor
  · rw [select_coin_ids_nonbase_eq _ _ _ _ _ _ _ _ hcoin hns,
      select_coin_ids_spec_nonbase_eq _ _ _ _ _ _ _ _ hcoin hns,
      collect_clamp_nonbase _ _ _ hnb]
  · intro hle
    rw [select_coin_ids_nonbase_eq _ _ _ _ _ _ _ _ hcoin hns,
      collect_nil_of_nonpos _ _ _ hnb hle]
    rfl

/-- Witness for C6 at a concrete token whose burning exceeds its transfers. -/
theorem selector_nonbase_clamp_equivalence_witness :
    select_coin_ids
        (organize_utxos_by_coin
          [{ utxo_hash := "txT", utxo_ix := 0, amount := 7, address := "a1",
             coin := "pid.aa" }])
        (organize_txouts_by_coin [{ address := "a2", amount := 5, coin := "pid.aa" }])
        (organize_txouts_by_coin [{ address := "a2", amount := 10, coin := "pid.aa" }])
        3 [] 0 0 "pid.aa"
      = [] :=
  (selector_nonbase_clamp_equivalence
    (organize_utxos_by_coin
      [{ utxo_hash := "txT", utxo_ix := 0, amount := 7, address := "a1",
         coin := "pid.aa" }])
    (organize_txouts_by_coin [{ address := "a2", amount := 5, coin := "pid.aa" }])
    (organize_txouts_by_coin [{ address := "a2", amount := 10, coin := "pid.aa" }])
    3 [] 0 0 "pid.aa" (by decide) (by decide) (by decide)).2 (by decide)

/-- C7: the concrete scenario of the spec: a single 1000-lovelace UTxO, a 300
payment, fee 10, deposit 0, minChangeValue 0: input txA#0 is selected and the
balanced outputs are the payment plus 690 change to the source address. -/
theorem orchestrator_basic_scenario :
    get_tx_ins_outs
        [{ utxo_hash := "txA", utxo_ix := 0, amount := 1000, address := "addr1" }]
        0 0 "addr1" [] [{ address := "addr2", amount := 300 }] 10 (some 0) [] [] false
      = Except.ok
          ([{ utxo_hash := "txA", utxo_ix := 0, amount := 1000, address := "addr1" }],
           [{ address := "addr2", amount := 300 }, { address := "addr1", amount := 690 }]) :=
  rfl

/-- C8 counterexample: when a -1-sentinel output is present, the Balancer does not
leave the grouped requested-output dictionary unchanged: it removes the sentinel
entry from the coin's list (the source pops it in place), so the dictionary state
after the call differs from the one passed in. -/
theorem balancer_mutates_grouped_outputs :
    balance_txouts "addr1" [{ address := "addr2", amount := -1 }]
        (organize_utxos_by_coin
          [{ utxo_hash := "txA", utxo_ix := 0, amount := 1000, address := "addr1" }])
        (organize_txouts_by_coin [{ address := "addr2", amount := -1 }])
        (organize_txouts_by_coin []) 10 [] 0 false
      = Except.ok ([{ address := "addr2", amount := 990 }], [(DEFAULT_COIN, [])])
    ∧ ([(DEFAULT_COIN, ([] : List TxOut))] : CoinDB TxOut)
        ≠ organize_txouts_by_coin [{ address := "addr2", amount := -1 }] :=
  ⟨rfl, by decide⟩

/-- C8 amended: the Balancer leaves the grouped requested-output lists unchanged
whenever no -1-sentinel output is present for any coin; when a sentinel is present
it removes that entry from its coin's list, an in-place mutation observable by the
caller. -/
theorem balancer_preserves_outputs_without_sentinel (src : String) (txouts : List TxOut)
    (txins_db : CoinDB UTXOData) (passed_db mint_db : CoinDB TxOut) (fee : Int)
    (w : List TxOut) (dep : Int) (lb : Bool)
    (hns : ∀ p ∈ passed_db, ∀ t ∈ p.2, t.amount ≠ -1) :
    ∀ res db', balance_txouts src txouts txins_db passed_db mint_db fee w dep lb =
        Except.ok (res, db') → db' = passed_db := by
  intro res db' h
  unfold balance_txouts at h
  cases hl : balanceLoop src txins_db mint_db fee w dep lb
      (coinsUnion3 txins_db passed_db mint_db) (txouts, passed_db) with
  | error e => rw [hl] at h; simp at h
  | ok st0 =>
    obtain ⟨a, b⟩ := st0
    rw [hl] at h
    simp only [Except.ok.injEq, Prod.mk.injEq] at h
    have hb := balanceLoop_preserves_db src txins_db mint_db fee w dep lb
      (coinsUnion3 txins_db passed_db mint_db) txouts passed_db hns a b hl
    rw [← h.2]
    exact hb

/-- Witness for the amended C8 at a concrete sentinel-free input. -/
theorem balancer_preserves_outputs_without_sentinel_witness :
    ([(DEFAULT_COIN, [{ address := "addr2", amount := 300 }])] : CoinDB TxOut)
      = organize_txouts_by_coin [{ address := "addr2", amount := 300 }] :=
  balancer_preserves_outputs_without_sentinel "addr1"
    [{ address := "addr2", amount := 300 }]
    (organize_utxos_by_coin
      [{ utxo_hash := "txA", utxo_ix := 0, amount := 1000, address := "addr1" }])
    (organize_txouts_by_coin [{ address := "addr2", amount := 300 }])
    (organize_txouts_by_coin []) 10 [] 0 false (by decide)
    [{ address := "addr2", amount := 300 }, { address := "addr1", amount := 690 }]
    [(DEFAULT_COIN, [{ address := "addr2", amount := 300 }])] rfl

/-- C9: the coin identifier of every token record built by the UTxO Decoder is the
raw hex-suffixed composite policyid.assetName (or the bare policy id for an empty
asset name), independent of the best-effort hex decoding of the asset name; a
decoding failure is swallowed and only leaves the decoded-name field empty, while a
success only fills that display field. -/
theorem decoder_raw_coin_authoritative (utxo_hash : String) (utxo_ix : Nat)
    (addr datum_hash policyid asset_name : String) (amount : Int) :
    ((mkTokenRecord utxo_hash utxo_ix addr datum_hash policyid asset_name amount).coin
        = if asset_name = "" then policyid else policyid ++ "." ++ asset_name)
    ∧ (asset_name ≠ "" → hexUtf8Decode asset_name = none →
        (mkTokenRecord utxo_hash utxo_ix addr datum_hash policyid asset_name
          amount).decoded_coin = "")
    ∧ (∀ s, asset_name ≠ "" → hexUtf8Decode asset_name = some s →
        (mkTokenRecord utxo_hash utxo_ix addr datum_hash policyid asset_name
          amount).decoded_coin = policyid ++ "." ++ s) := by
  refine ⟨rfl, ?_, ?_⟩
  · intro h hd
    simp [mkTokenRecord, h, hd]
  · intro s h hd
    simp [mkTokenRecord, h, hd]

/-- Witness for C9 on the non-hex asset name zz, whose decoding fails. -/
theorem decoder_raw_coin_authoritative_witness :
    (mkTokenRecord "txA" 0 "a1" "" "pid" "zz" 5).coin
        = (if ("zz" : String) = "" then "pid" else "pid" ++ "." ++ "zz")
    ∧ (mkTokenRecord "txA" 0 "a1" "" "pid" "zz" 5).decoded_coin = "" :=
  ⟨(decoder_raw_coin_authoritative "txA" 0 "a1" "" "pid" "zz" 5).1,
   (decoder_raw_coin_authoritative "txA" 0 "a1" "" "pid" "zz" 5).2.1 (by decide) (by decide)⟩

/-- C10: passing an empty explicit input list to the orchestrator behaves exactly
like not supplying explicit inputs: the address UTxO snapshot is fetched, filtered
and automatic selection runs (first conjunct, equality with the spelled-out
automatic path for all inputs); in particular the empty list is not used verbatim:
on a concrete request the returned inputs are the selected fetched UTxOs, not the
empty list. -/
theorem empty_explicit_inputs_use_selection :
    (∀ (address_utxos : List UTXOData) (ext_dep mcv : Int) (src : String)
        (txouts : List TxOut) (fee : Int) (dep : Option Int) (w mint : List TxOut)
        (lb : Bool),
      get_tx_ins_outs address_utxos ext_dep mcv src [] txouts fee dep w mint lb
        = get_tx_ins_outs_auto address_utxos ext_dep mcv src txouts fee dep w mint lb)
    ∧ get_tx_ins_outs
        [{ utxo_hash := "txA", utxo_ix := 0, amount := 500, address := "a1" }]
        0 0 "a1" [] [{ address := "a2", amount := 200 }] 7 (some 0) [] [] false
      = Except.ok
          ([{ utxo_hash := "txA", utxo_ix := 0, amount := 500, address := "a1" }],
           [{ address := "a2", amount := 200 }, { address := "a1", amount := 293 }]) :=
  ⟨fun _ _ _ _ _ _ _ _ _ _ => rfl, rfl⟩

end TxTools
